import Mathlib

/-!
Verification of the build-orchestration pipeline of `app.py` (online
assignment editor: upload a zip, run `make`, serve the produced PDF).

Filesystem paths are modelled as lists of path segments (`List String`),
relative to a canonical root unless stated otherwise.  Machine state touched
by the program (the on-disk tree, the in-memory `JOBS` dict, the clock) is
passed explicitly.  Python's `pathlib` operations are embedded lexically:
`Path.resolve` normalises `.` and `..` segments (symbolic links are outside
the model), `Path.parts` is the segment list, `p.parent` drops the last
segment, and `p.parents` are the strict prefixes.
-/

/-- Lexical embedding of `Path.resolve` on an absolute path given as a
segment list: `.` segments vanish and `..` removes the previous segment
(at the root, `..` stays at the root), as POSIX resolution does in the
absence of symbolic links. -/
def resolvePath (p : List String) : List String :=
  p.foldl (fun acc seg =>
    if seg = "." then acc
    else if seg = ".." then acc.dropLast
    else acc ++ [seg]) []

/-- One record of the uploaded archive, as `safe_extract_zip` sees it after
`Path(member.filename)`: whether the stored path is absolute, plus its
segments (`Path.parts`, without the leading root marker). -/
structure ZipEntry where
  absolute : Bool
  parts : List String
deriving DecidableEq, Repr

/-- The `member.filename` string used in the error messages, re-rendered
from the parsed path. -/
def ZipEntry.filenameStr (e : ZipEntry) : String :=
  (if e.absolute then "/" else "") ++ String.intercalate "/" e.parts

/-- Failures of `safe_extract_zip` (the two `ValueError` messages of
`app.py` lines 96 and 101), carrying the offending entry name. -/
inductive ZipError where
  | badPath (name : String)
  | badTarget (name : String)
deriving DecidableEq, Repr

/-- The validation loop of `safe_extract_zip` (app.py lines 91-101): for
each member in order, first the textual check (absolute path or a `..`
segment), then the resolved-destination check (`dest_dir.resolve()` must be
the target's parent or one of its ancestors).  Returns the first error. -/
def validateEntries (dest : List String) : List ZipEntry → Option ZipError
  | [] => none
  | e :: es =>
    if e.absolute || e.parts.contains ".." then
      some (ZipError.badPath e.filenameStr)
    else if !(List.isPrefixOf (resolvePath dest)
        (resolvePath (dest ++ e.parts.dropLast))) then
      some (ZipError.badTarget e.filenameStr)
    else validateEntries dest es

/-- One archive entry fails `safe_extract_zip`'s validation: its stored
path is absolute, or contains a `..` segment, or its resolved destination
parent is not at or below the destination directory. -/
def entryRejected (dest : List String) (e : ZipEntry) : Bool :=
  (e.absolute || e.parts.contains "..") ||
    !(List.isPrefixOf (resolvePath dest)
      (resolvePath (dest ++ e.parts.dropLast)))

/-- `safe_extract_zip` (app.py lines 88-103): validate every member, and
only when all pass run `z.extractall(dest_dir)`.  The first component is
the list of paths written to disk (the trace of `extractall`); the second
is the raised error, if any.  On any validation failure nothing at all is
written, because `extractall` is only reached after the loop finishes. -/
def safe_extract_zip (dest : List String) (entries : List ZipEntry) :
    List (List String) × Option ZipError :=
  match validateEntries dest entries with
  | some err => ([], some err)
  | none => (entries.map (fun e => dest ++ e.parts), none)

/-- One entry of a directory tree listing: its path (segments relative to
the extraction root) and whether it is a directory.  This is the view of
the extracted tree that `pick_make_dir` obtains through `Path.iterdir`
(entries of length one) and `Path.rglob` (all entries, matched by final
segment; `rglob` yields directories as well as plain files). -/
structure FSEntry where
  path : List String
  isDir : Bool
deriving DecidableEq, Repr

/-- A filesystem listing. -/
abbrev FSState := List FSEntry

/-- Well-formedness of a listing as the recursive listing of a real
directory tree: paths are nonempty, and every strict nonempty prefix of a
listed path is itself listed, as a directory. -/
def fswf (fs : FSState) : Bool :=
  fs.all (fun e =>
    !e.path.isEmpty &&
      (List.range e.path.length).all (fun k =>
        k == 0 || fs.any (fun d => decide (d = FSEntry.mk (e.path.take k) true))))

/-- `extract_root.iterdir()` filtered by `p.name not in ("__MACOSX",)`
(app.py line 114): the top-level entries whose single segment is not the
macOS metadata directory name. -/
def topEntries (fs : FSState) : List FSEntry :=
  fs.filter (fun e =>
    match e.path with
    | [n] => !(n == "__MACOSX")
    | _ => false)

/-- `top_dirs` (app.py line 115). -/
def top_dirs (fs : FSState) : List FSEntry :=
  (topEntries fs).filter (fun e => e.isDir)

/-- `top_files` (app.py line 116). -/
def top_files (fs : FSState) : List FSEntry :=
  (topEntries fs).filter (fun e => !e.isDir)

/-- An entry matched by `rglob("Makefile")` and surviving the
`"__MACOSX" not in m.parts` filter: final segment `Makefile`, no
`__MACOSX` segment anywhere.  Note that `rglob` matches by name only, so
a directory named `Makefile` also qualifies. -/
def isMakefileEntry (e : FSEntry) : Bool :=
  e.path.getLast? == some "Makefile" && !(e.path.contains "__MACOSX")

/-- `makefiles` (app.py lines 119-121). -/
def makefiles (fs : FSState) : List FSEntry :=
  fs.filter isMakefileEntry

/-- Insert into a list sorted by ascending path length, before the first
element of length at least the new one's (so the resulting sort is stable,
like Python's `list.sort`). -/
def insertByLen (q : List String) : List (List String) → List (List String)
  | [] => [q]
  | r :: rs => if q.length ≤ r.length then q :: r :: rs else r :: insertByLen q rs

/-- Stable sort by ascending path length: the embedding of
`candidates.sort(key=lambda p: len(p.relative_to(...).parts))`, which
orders paths by component count. -/
def sortByLen : List (List String) → List (List String)
  | [] => []
  | q :: qs => insertByLen q (sortByLen qs)

/-- Failures of `pick_make_dir`: the explicit `FileNotFoundError` of
app.py line 124, and the `IndexError` that `candidates[0]` would raise on
an empty candidate list. -/
inductive PickErr where
  | noMakefile
  | indexError
deriving DecidableEq, Repr

/-- Strictly-inside-`base` test used to embed `base.rglob(...)`: the
entry's first segment is `base`'s single segment and there is at least one
further segment. -/
def underDir (base : FSEntry) (e : FSEntry) : Bool :=
  e.path.head? == base.path.head? && decide (2 ≤ e.path.length)

/-- `candidates` of the single-top-level-directory branch (app.py lines
134-135): entries strictly inside `base` named `Makefile`, with the
`__MACOSX` paths excluded, as paths. -/
def baseCandidates (fs : FSState) (base : FSEntry) : List (List String) :=
  (fs.filter (fun e => underDir base e && isMakefileEntry e)).map FSEntry.path

/-- `pick_make_dir` (app.py lines 106-141).  Paths are relative to the
extraction root, which is `[]`.  `m.parent == extract_root` holds exactly
for paths of length one, and the sort keys `len(p.relative_to(base).parts)`
and `len(p.relative_to(extract_root).parts)` order paths exactly as total
segment count does. -/
def pick_make_dir (fs : FSState) : Except PickErr (List String) :=
  let mfs := makefiles fs
  if mfs.isEmpty then Except.error PickErr.noMakefile
  else if mfs.any (fun e => e.path.length == 1) then Except.ok []
  else
    match top_dirs fs, top_files fs with
    | [base], [] =>
      match sortByLen (baseCandidates fs base) with
      | [] => Except.error PickErr.indexError
      | q :: _ => Except.ok q.dropLast
    | _, _ =>
      match sortByLen (mfs.map FSEntry.path) with
      | [] => Except.error PickErr.indexError
      | q :: _ => Except.ok q.dropLast

/-- Concrete tree, the claim C6 example shape: one top-level directory
`proj`, descriptor files at depth 2 (`proj/Makefile`) and depth 3
(`proj/sub/Makefile`). -/
def fs6 : FSState :=
  [FSEntry.mk ["proj"] true,
   FSEntry.mk ["proj", "Makefile"] false,
   FSEntry.mk ["proj", "sub"] true,
   FSEntry.mk ["proj", "sub", "Makefile"] false]

/-- Concrete tree whose single top-level directory is itself named
`Makefile`, with the only descriptor file at depth 3. -/
def fsC6 : FSState :=
  [FSEntry.mk ["Makefile"] true,
   FSEntry.mk ["Makefile", "sub"] true,
   FSEntry.mk ["Makefile", "sub", "Makefile"] false]

/-- Concrete tree with a single top-level directory named `Makefile` and
nothing else. -/
def fsC9 : FSState := [FSEntry.mk ["Makefile"] true]

/-- Concrete tree with one top-level directory `a` holding a `Makefile`. -/
def fsW9 : FSState := [FSEntry.mk ["a"] true, FSEntry.mk ["a", "Makefile"] false]

/-- The in-memory `JOBS` dict (app.py line 85): job identifier to
(artifact path, creation time).  A Python dict keyed by the identifier is
modelled as an association list in which assignment prepends and lookup
takes the first match; identifiers are unique in any state reachable by
the program, so the two agree.  `time.time()` values are modelled as
integers. -/
abbrev JobStore := List (String × List String × Int)

/-- `TTL_SECONDS = 15 * 60` (app.py line 86). -/
def TTL_SECONDS : Int := 15 * 60

/-- `JOBS[job_id] = (pdf_path, time.time())` (app.py line 204). -/
def createJob (js : JobStore) (id : String) (p : List String) (t : Int) :
    JobStore :=
  (id, p, t) :: js

/-- `JOBS.get(job_id)` (app.py line 239). -/
def lookupJob (js : JobStore) (id : String) : Option (List String × Int) :=
  match js.find? (fun e => e.1 == id) with
  | some e => some e.2
  | none => none

/-- `cleanup_expired_jobs` (app.py lines 256-269): drop every entry whose
age strictly exceeds the time-to-live, and for each dropped entry delete
`pdf_path.parents[2]` — the path with its last three segments removed —
from disk.  Returns the surviving store and the list of deleted
directories. -/
def cleanup_expired_jobs (now : Int) (js : JobStore) :
    JobStore × List (List String) :=
  (js.filter (fun e => !decide (now - e.2.2 > TTL_SECONDS)),
   (js.filter (fun e => decide (now - e.2.2 > TTL_SECONDS))).map
     (fun e => e.2.1.dropLast.dropLast.dropLast))

/-- Outcome of the `/download/<job_id>` handler. -/
inductive DlResp where
  | file (p : List String)
  | notFound
deriving Repr

/-- `download` (app.py lines 237-254): look the identifier up; 404 when
absent; 404 when the recorded artifact path no longer exists on disk
(`pdf_path` itself is always a truthy `Path`); otherwise serve the file.
`disk` is the current set of existing paths. -/
def download (js : JobStore) (disk : List String → Bool) (id : String) :
    DlResp :=
  match lookupJob js id with
  | none => DlResp.notFound
  | some (p, _) => if disk p then DlResp.file p else DlResp.notFound

/-- A `/download` request as actually served: the `before_request`
housekeeping hook (app.py lines 271-273) first sweeps expired jobs, then
the handler runs against the swept store. -/
def handleDownload (now : Int) (js : JobStore) (disk : List String → Bool)
    (id : String) : DlResp :=
  download (cleanup_expired_jobs now js).1 disk id

/-- `find_output_pdf` (app.py lines 144-150): the fixed conventional
output path `make_dir/build/pdf/zadatak.pdf`; `ValueError` when it does
not exist. -/
def find_output_pdf (makeDir : List String) (disk : List String → Bool) :
    Except String (List String) :=
  let pdf := makeDir ++ ["build", "pdf", "zadatak.pdf"]
  if disk pdf then Except.ok pdf
  else Except.error "Error while trying to get the generated PDF."

/-- Embedding of Python's `str.lower()` on the ASCII range (filenames of
interest are ASCII): map the character list, shifting `A`-`Z` down by 32. -/
def pyLower (s : String) : String :=
  String.mk (s.data.map (fun c =>
    if 'A' ≤ c ∧ c ≤ 'Z' then Char.ofNat (c.toNat + 32) else c))

/-- Embedding of Python's `str.endswith(suffix)`: suffix match on the
character list. -/
def strEndsWith (s suffix : String) : Bool :=
  List.isSuffixOf suffix.data s.data

/-- Result of the `subprocess.run(["make", ...], timeout=120)` call:
either the deadline expired (`subprocess.TimeoutExpired`, the child is
killed and nothing is returned) or the tool ran to completion with an
exit code and the merged stdout+stderr text (`stderr=subprocess.STDOUT`,
`check=False`, so a nonzero exit is returned, not raised). -/
inductive ProcResult where
  | timeout
  | completed (exitcode : Nat) (log : String)

/-- The inputs that drive one `/build` request through the pipeline: the
multipart field's presence and filename, the outcome of opening the
uploaded archive (`none` models `zipfile.BadZipFile`), the archive's
entries, the extracted tree the resolver will see, the build tool's
result, and whether the conventional output PDF exists afterwards. -/
structure BuildRequest where
  hasFileField : Bool
  filename : String
  zipParse : Option (List ZipEntry)
  extractedFs : FSState
  proc : ProcResult
  pdfOnDisk : Bool

/-- An HTTP-level response of the `/build` handler: the redirect on
success, a normal `return` with status and body, an `abort(status, msg)`,
or the framework's 500 page for an exception the handler does not catch. -/
inductive HttpResponse where
  | redirect (location : String)
  | plain (status : Nat) (body : String)
  | httpAbort (status : Nat) (message : String)
  | serverError (status : Nat)

/-- The body of the nonzero-exit response (app.py line 197). -/
def buildFailedBody (log : String) : String :=
  "Build failed.\n\n----- build log -----\n" ++ log

/-- What one `/build` request did: the response, whether the Working
Directory was created, whether it was removed again before returning, and
the Job Store record inserted (if any). -/
structure BuildOutcome where
  response : HttpResponse
  workdirCreated : Bool
  workdirRemoved : Bool
  job : Option (List String × Int)

/-- The `/build` handler (app.py lines 157-210).  `workdir` is the fresh
`mkdtemp` directory, `jobId` the fresh `uuid4` hex, `now` the clock at
job creation.  The only `except` clause is for `subprocess.TimeoutExpired`
(line 208), which removes the Working Directory and returns 504; the
`abort(400)` calls raise `HTTPException`s that propagate, and an error
from `pick_make_dir` or `find_output_pdf` propagates as an uncaught
exception, which the framework surfaces as a 500 — none of these paths
removes the Working Directory. -/
def build (workdir : List String) (jobId : String) (now : Int)
    (req : BuildRequest) : BuildOutcome :=
  if !req.hasFileField then
    BuildOutcome.mk (HttpResponse.httpAbort 400 "Missing file field") false false none
  else if req.filename = "" then
    BuildOutcome.mk (HttpResponse.httpAbort 400 "No file selected") false false none
  else if !(strEndsWith (pyLower req.filename) ".zip") then
    BuildOutcome.mk (HttpResponse.httpAbort 400 "Please upload a .zip file") false false none
  else
    match req.zipParse with
    | none =>
      BuildOutcome.mk (HttpResponse.httpAbort 400 "Invalid or unsafe ZIP") true false none
    | some entries =>
      match (safe_extract_zip (workdir ++ ["src"]) entries).2 with
      | some _ =>
        BuildOutcome.mk (HttpResponse.httpAbort 400 "Invalid or unsafe ZIP") true false none
      | none =>
        match pick_make_dir req.extractedFs with
        | Except.error _ =>
          BuildOutcome.mk (HttpResponse.serverError 500) true false none
        | Except.ok makeRel =>
          match req.proc with
          | ProcResult.timeout =>
            BuildOutcome.mk (HttpResponse.plain 504 "Build timed out.") true true none
          | ProcResult.completed code log =>
            if code ≠ 0 then
              BuildOutcome.mk (HttpResponse.plain 500 (buildFailedBody log)) true false none
            else
              match find_output_pdf (workdir ++ "src" :: makeRel)
                  (fun _ => req.pdfOnDisk) with
              | Except.error _ =>
                BuildOutcome.mk (HttpResponse.serverError 500) true false none
              | Except.ok pdfPath =>
                BuildOutcome.mk (HttpResponse.redirect ("/done/" ++ jobId))
                  true false (some (pdfPath, now))

/-- A store with one expired job whose artifact sits at the conventional
`workdir/src/build/pdf/zadatak.pdf` location (the build ran at the
extraction root, the Working Directory being `tmp/job1`). -/
def c2store : JobStore :=
  [("job1", ["tmp", "job1", "src", "build", "pdf", "zadatak.pdf"], 0)]

/-- Inputs of a request whose build tool exits nonzero (extraction and
resolution succeed, the tool completes with exit code 2). -/
def reqFailBuild : BuildRequest :=
  BuildRequest.mk true "a.zip" (some [ZipEntry.mk false ["Makefile"]])
    [FSEntry.mk ["Makefile"] false] (ProcResult.completed 2 "make: error") false

/-- Inputs of a request whose upload is an unsafe archive. -/
def reqBadZip : BuildRequest :=
  BuildRequest.mk true "a.zip" (some [ZipEntry.mk false ["..", "evil"]])
    [] (ProcResult.completed 0 "") false

/-- Inputs of a request whose build tool hits the 120 s deadline. -/
def reqTimeout : BuildRequest :=
  BuildRequest.mk true "a.zip" (some [ZipEntry.mk false ["Makefile"]])
    [FSEntry.mk ["Makefile"] false] ProcResult.timeout false

/-- If some entry of the list is rejected, `validateEntries` reports an
error naming a rejected entry of the list. -/
theorem validateEntries_of_rejected (dest : List String) :
    ∀ entries : List ZipEntry, (∃ e ∈ entries, entryRejected dest e = true) →
      ∃ e ∈ entries, entryRejected dest e = true ∧
        (validateEntries dest entries = some (ZipError.badPath e.filenameStr) ∨
         validateEntries dest entries = some (ZipError.badTarget e.filenameStr))
  | [], h => by simp at h
  | e :: es, h => by
    cases h1 : (e.absolute || e.parts.contains "..") with
    | true =>
      refine ⟨e, List.mem_cons_self e es, ?_, Or.inl ?_⟩
      · unfold entryRejected; rw [h1]; rfl
      · unfold validateEntries; rw [h1]; rfl
    | false =>
      cases h2 : (!(List.isPrefixOf (resolvePath dest)
          (resolvePath (dest ++ e.parts.dropLast)))) with
      | true =>
        refine ⟨e, List.mem_cons_self e es, ?_, Or.inr ?_⟩
        · unfold entryRejected; rw [h1, h2]; rfl
        · unfold validateEntries; rw [h1, h2]; rfl
      | false =>
        have he : entryRejected dest e = false := by
          unfold entryRejected; rw [h1, h2]; rfl
        have hes : ∃ x ∈ es, entryRejected dest x = true := by
          rcases h with ⟨x, hx, hxr⟩
          rcases List.mem_cons.mp hx with rfl | hx
          · rw [he] at hxr; exact absurd hxr (by simp)
          · exact ⟨x, hx, hxr⟩
        rcases validateEntries_of_rejected dest es hes with ⟨x, hx, hxr, hv⟩
        refine ⟨x, List.mem_cons_of_mem _ hx, hxr, ?_⟩
        have hstep : validateEntries dest (e :: es) = validateEntries dest es := by
          conv_lhs => unfold validateEntries
          rw [h1, h2]; rfl
        rw [hstep]; exact hv

/-- Claim C3: an archive with at least one entry whose stored path is
absolute, contains a parent-traversal segment, or whose resolved
destination escapes the extraction root, makes `safe_extract_zip` fail
with an unsafe-path error naming a rejected entry, and no entry at all is
written to disk (validation of every entry precedes `extractall`). -/
theorem safe_extract_zip_rejects_unsafe (dest : List String)
    (entries : List ZipEntry)
    (h : ∃ e ∈ entries, entryRejected dest e = true) :
    ∃ e ∈ entries, entryRejected dest e = true ∧
      ((safe_extract_zip dest entries).2 = some (ZipError.badPath e.filenameStr) ∨
       (safe_extract_zip dest entries).2 = some (ZipError.badTarget e.filenameStr)) ∧
      (safe_extract_zip dest entries).1 = [] := by
  rcases validateEntries_of_rejected dest entries h with ⟨e, he, her, hv⟩
  refine ⟨e, he, her, ?_, ?_⟩ <;>
    rcases hv with hv | hv <;> simp [safe_extract_zip, hv]

/-- Witness for C3: the single-entry archive `../evil` aimed at
`/tmp/job/src` is rejected with the textual unsafe-path error and the
write trace is empty. -/
theorem safe_extract_zip_rejects_unsafe_witness :
    ∃ e ∈ [ZipEntry.mk false ["..", "evil"]],
      entryRejected ["tmp", "job", "src"] e = true ∧
      ((safe_extract_zip ["tmp", "job", "src"]
          [ZipEntry.mk false ["..", "evil"]]).2 =
        some (ZipError.badPath e.filenameStr) ∨
       (safe_extract_zip ["tmp", "job", "src"]
          [ZipEntry.mk false ["..", "evil"]]).2 =
        some (ZipError.badTarget e.filenameStr)) ∧
      (safe_extract_zip ["tmp", "job", "src"]
          [ZipEntry.mk false ["..", "evil"]]).1 = [] :=
  safe_extract_zip_rejects_unsafe ["tmp", "job", "src"]
    [ZipEntry.mk false ["..", "evil"]] (by decide)

theorem mem_insertByLen {x q : List String} :
    ∀ {l : List (List String)}, x ∈ insertByLen q l ↔ x = q ∨ x ∈ l
  | [] => by simp [insertByLen]
  | r :: rs => by
    unfold insertByLen
    split
    · simp
    · rw [List.mem_cons, List.mem_cons, mem_insertByLen]
      tauto

theorem mem_sortByLen {x : List String} :
    ∀ {l : List (List String)}, x ∈ sortByLen l ↔ x ∈ l
  | [] => by simp [sortByLen]
  | q :: qs => by
    unfold sortByLen
    rw [mem_insertByLen, List.mem_cons, mem_sortByLen]

theorem sorted_insertByLen {q : List String} :
    ∀ {l : List (List String)},
      l.Pairwise (fun a b => a.length ≤ b.length) →
      (insertByLen q l).Pairwise (fun a b => a.length ≤ b.length)
  | [], _ => by simp [insertByLen]
  | r :: rs, h => by
    unfold insertByLen
    rcases List.pairwise_cons.mp h with ⟨hr, hrs⟩
    split
    · rename_i hle
      refine List.pairwise_cons.mpr ⟨?_, h⟩
      intro b hb
      rcases List.mem_cons.mp hb with rfl | hb
      · exact hle
      · exact le_trans hle (hr b hb)
    · rename_i hgt
      refine List.pairwise_cons.mpr ⟨?_, sorted_insertByLen hrs⟩
      intro b hb
      rcases mem_insertByLen.mp hb with rfl | hb
      · exact le_of_not_le hgt
      · exact hr b hb

theorem sorted_sortByLen :
    ∀ {l : List (List String)},
      (sortByLen l).Pairwise (fun a b => a.length ≤ b.length)
  | [] => by simp [sortByLen]
  | q :: qs => sorted_insertByLen (sorted_sortByLen (l := qs))

/-- The head of the sorted candidate list is a candidate of minimal
length: this is what indexing `candidates[0]` after the sort yields. -/
theorem sortByLen_head_min {l : List (List String)} {q : List String}
    {rest : List (List String)} (h : sortByLen l = q :: rest) :
    q ∈ l ∧ ∀ y ∈ l, q.length ≤ y.length := by
  constructor
  · exact mem_sortByLen.mp (h ▸ List.mem_cons_self q rest)
  · intro y hy
    have hy' : y ∈ q :: rest := h ▸ mem_sortByLen.mpr hy
    rcases List.mem_cons.mp hy' with rfl | hy'
    · exact le_refl _
    · have := sorted_sortByLen (l := l)
      rw [h] at this
      exact (List.pairwise_cons.mp this).1 y hy'

theorem sortByLen_eq_nil {l : List (List String)} :
    sortByLen l = [] ↔ l = [] := by
  constructor
  · intro h
    cases l with
    | nil => rfl
    | cons q qs =>
      exfalso
      have : q ∈ sortByLen (q :: qs) := mem_sortByLen.mpr (List.mem_cons_self q qs)
      rw [h] at this
      exact absurd this (List.not_mem_nil q)
  · intro h; rw [h]; rfl

/-- A well-formed listing has no empty path. -/
theorem fswf_path_ne_nil {fs : FSState} {e : FSEntry} (hwf : fswf fs = true)
    (he : e ∈ fs) : e.path ≠ [] := by
  have h := (List.all_eq_true.mp hwf e he)
  rcases Bool.and_eq_true_iff.mp h with ⟨h1, _⟩
  simpa [List.isEmpty_iff] using h1

/-- In a well-formed listing, every strict nonempty prefix of a listed
path is listed as a directory. -/
theorem fswf_take {fs : FSState} {e : FSEntry} {k : ℕ} (hwf : fswf fs = true)
    (he : e ∈ fs) (hk0 : 0 < k) (hk : k < e.path.length) :
    FSEntry.mk (e.path.take k) true ∈ fs := by
  have h := (List.all_eq_true.mp hwf e he)
  rcases Bool.and_eq_true_iff.mp h with ⟨_, h2⟩
  have h3 := List.all_eq_true.mp h2 k (List.mem_range.mpr hk)
  rcases Bool.or_eq_true_iff.mp h3 with h4 | h4
  · exfalso
    have hk0' : k = 0 := by simpa using h4
    omega
  · rcases List.any_eq_true.mp h4 with ⟨d, hd, hdd⟩
    exact (of_decide_eq_true hdd) ▸ hd

/-- In a well-formed listing, the parent of a listed path of at least two
segments is listed as a directory. -/
theorem fswf_dropLast {fs : FSState} {e : FSEntry} (hwf : fswf fs = true)
    (he : e ∈ fs) (hlen : 2 ≤ e.path.length) :
    FSEntry.mk e.path.dropLast true ∈ fs := by
  rw [List.dropLast_eq_take]
  exact fswf_take hwf he (by omega) (by omega)

theorem mem_makefiles {fs : FSState} {e : FSEntry} :
    e ∈ makefiles fs ↔ e ∈ fs ∧ isMakefileEntry e = true :=
  List.mem_filter

/-- Under the conditions selecting the single-top-level-directory branch,
every surviving `Makefile`-named entry lies strictly inside the single
top-level directory and therefore appears in the candidate list. -/
theorem mem_baseCandidates_of_makefile {fs : FSState} {base e0 : FSEntry}
    (hwf : fswf fs = true)
    (hroot : ∀ e ∈ makefiles fs, e.path.length ≠ 1)
    (htd : top_dirs fs = [base])
    (he0 : e0 ∈ makefiles fs) :
    e0.path ∈ baseCandidates fs base := by
  rcases mem_makefiles.mp he0 with ⟨hfs, hmk⟩
  have hne : e0.path ≠ [] := fswf_path_ne_nil hwf hfs
  rcases hp : e0.path with _ | ⟨h, rest⟩
  · exact absurd hp hne
  have hlen2 : 2 ≤ e0.path.length := by
    rcases rest with _ | ⟨r, rs⟩
    · exact absurd (by rw [hp]; rfl) (hroot e0 he0)
    · rw [hp]; simp
  have hnomac : e0.path.contains "__MACOSX" = false := by
    rcases Bool.and_eq_true_iff.mp hmk with ⟨_, h2⟩
    simpa using h2
  have hhne : ¬(h == "__MACOSX") = true := by
    intro hcontra
    have : e0.path.contains "__MACOSX" = true := by
      rw [hp]
      have : h = "__MACOSX" := by simpa using hcontra
      simp [this, List.contains]
    rw [this] at hnomac; exact absurd hnomac (by simp)
  have htop : FSEntry.mk [h] true ∈ fs := by
    have := fswf_take hwf hfs (k := 1) (by omega) (by omega)
    simpa [hp] using this
  have hmemtd : FSEntry.mk [h] true ∈ top_dirs fs := by
    unfold top_dirs topEntries
    rw [List.mem_filter, List.mem_filter]
    refine ⟨⟨htop, ?_⟩, rfl⟩
    simpa using hhne
  have hbase : FSEntry.mk [h] true = base := by
    rw [htd] at hmemtd
    simpa using hmemtd
  unfold baseCandidates
  rw [List.mem_map]
  refine ⟨e0, ?_, hp⟩
  rw [List.mem_filter]
  refine ⟨hfs, ?_⟩
  have hlen2' : 2 ≤ (h :: rest).length := by rw [hp] at hlen2; exact hlen2
  unfold underDir
  rw [← hbase, hmk]
  simp [hp, decide_eq_true_eq]
  have hrl : 2 ≤ rest.length + 1 := by simpa using hlen2'
  omega

/-- Claim C9 (amended): a well-formed tree makes every success of
`pick_make_dir` return either the extraction root or the parent of a
listed entry named `Makefile` outside `__MACOSX` subtrees — so the
returned directory directly contains an entry named `Makefile` (a file or,
since `rglob` matches directories too, a directory), its path has no
`__MACOSX` segment, and it is the root or a listed directory of the tree —
and `pick_make_dir` never incurs the out-of-bounds `candidates[0]`. -/
theorem pick_make_dir_ok_sound (fs : FSState) (hwf : fswf fs = true) :
    (∀ r, pick_make_dir fs = Except.ok r →
      (∃ e ∈ fs, isMakefileEntry e = true ∧ r = e.path.dropLast) ∧
      r.contains "__MACOSX" = false ∧
      (r = [] ∨ ∃ d ∈ fs, d.isDir = true ∧ d.path = r)) ∧
    pick_make_dir fs ≠ Except.error PickErr.indexError := by
  have main : ∀ e ∈ makefiles fs, e.path.length ≠ 1 → 2 ≤ e.path.length := by
    intro e he hne1
    have := fswf_path_ne_nil hwf (mem_makefiles.mp he).1
    have : e.path.length ≠ 0 := by simpa [List.length_eq_zero] using this
    omega
  have props : ∀ e ∈ makefiles fs,
      (∃ e' ∈ fs, isMakefileEntry e' = true ∧ e.path.dropLast = e'.path.dropLast) ∧
      (e.path.dropLast).contains "__MACOSX" = false ∧
      (e.path.dropLast = [] ∨ ∃ d ∈ fs, d.isDir = true ∧ d.path = e.path.dropLast) := by
    intro e he
    rcases mem_makefiles.mp he with ⟨hfs, hmk⟩
    have hnomac : e.path.contains "__MACOSX" = false := by
      rcases Bool.and_eq_true_iff.mp hmk with ⟨_, h2⟩
      simpa using h2
    refine ⟨⟨e, hfs, hmk, rfl⟩, ?_, ?_⟩
    · rcases hc : (e.path.dropLast).contains "__MACOSX" with _ | _
      · rfl
      · exfalso
        have hmem : "__MACOSX" ∈ e.path.dropLast := by simpa using hc
        have : "__MACOSX" ∈ e.path := (List.dropLast_sublist e.path).mem hmem
        have : e.path.contains "__MACOSX" = true := by simpa using this
        rw [this] at hnomac; exact absurd hnomac (by simp)
    · rcases hl : e.path.length with _ | n
      · exact absurd (List.length_eq_zero.mp hl) (fswf_path_ne_nil hwf hfs)
      · rcases n with _ | n
        · left
          rcases List.length_eq_one.mp hl with ⟨a, ha⟩
          rw [ha]; rfl
        · right
          exact ⟨FSEntry.mk e.path.dropLast true,
            fswf_dropLast hwf hfs (by omega), rfl, rfl⟩
  cases hmf : (makefiles fs).isEmpty with
  | true =>
    have hp : pick_make_dir fs = Except.error PickErr.noMakefile := by
      simp [pick_make_dir, hmf]
    rw [hp]
    exact ⟨fun r hr => by exact absurd hr (by simp), by simp⟩
  | false =>
    cases hone : (makefiles fs).any (fun e => e.path.length == 1) with
    | true =>
      have hp : pick_make_dir fs = Except.ok [] := by
        simp [pick_make_dir, hmf, hone]
      rcases List.any_eq_true.mp hone with ⟨e, he, hlen⟩
      have hlen1 : e.path.length = 1 := by simpa using hlen
      rcases List.length_eq_one.mp hlen1 with ⟨a, ha⟩
      rcases mem_makefiles.mp he with ⟨hfs, hmk⟩
      rw [hp]
      refine ⟨fun r hr => ?_, by simp⟩
      have hr' : r = [] := by simpa using hr.symm
      subst hr'
      exact ⟨⟨e, hfs, hmk, by rw [ha]; rfl⟩, rfl, Or.inl rfl⟩
    | false =>
      have hroot : ∀ e ∈ makefiles fs, e.path.length ≠ 1 := by
        intro e he
        have := List.any_eq_false.mp hone e he
        simpa using this
      have hlen2 : ∀ e ∈ makefiles fs, 2 ≤ e.path.length :=
        fun e he => main e he (hroot e he)
      have hnonempty : makefiles fs ≠ [] := by
        simpa [List.isEmpty_eq_false] using hmf
      rcases htd : top_dirs fs with _ | ⟨base, tds⟩
      case nil =>
        -- no single top-level directory: the final branch sorts all makefiles
        have hfinal : pick_make_dir fs =
            match sortByLen ((makefiles fs).map FSEntry.path) with
            | [] => Except.error PickErr.indexError
            | q :: _ => Except.ok q.dropLast := by
          simp [pick_make_dir, hmf, hone, htd]
        rcases hs : sortByLen ((makefiles fs).map FSEntry.path) with _ | ⟨q, rest⟩
        · exfalso
          have : (makefiles fs).map FSEntry.path = [] := sortByLen_eq_nil.mp hs
          exact hnonempty (List.map_eq_nil_iff.mp this)
        · rw [hfinal, hs]
          refine ⟨fun r hr => ?_, by simp⟩
          have hr' : r = q.dropLast := by simpa using hr.symm
          subst hr'
          have hq : q ∈ (makefiles fs).map FSEntry.path := (sortByLen_head_min hs).1
          rcases List.mem_map.mp hq with ⟨e, he, rfl⟩
          exact props e he
      case cons =>
        rcases tds with _ | ⟨b2, tds'⟩
        case cons =>
          have hfinal : pick_make_dir fs =
              match sortByLen ((makefiles fs).map FSEntry.path) with
              | [] => Except.error PickErr.indexError
              | q :: _ => Except.ok q.dropLast := by
            simp [pick_make_dir, hmf, hone, htd]
          rcases hs : sortByLen ((makefiles fs).map FSEntry.path) with _ | ⟨q, rest⟩
          · exfalso
            have : (makefiles fs).map FSEntry.path = [] := sortByLen_eq_nil.mp hs
            exact hnonempty (List.map_eq_nil_iff.mp this)
          · rw [hfinal, hs]
            refine ⟨fun r hr => ?_, by simp⟩
            have hr' : r = q.dropLast := by simpa using hr.symm
            subst hr'
            have hq : q ∈ (makefiles fs).map FSEntry.path := (sortByLen_head_min hs).1
            rcases List.mem_map.mp hq with ⟨e, he, rfl⟩
            exact props e he
        case nil =>
          rcases htf : top_files fs with _ | ⟨f1, tfs⟩
          case cons =>
            have hfinal : pick_make_dir fs =
                match sortByLen ((makefiles fs).map FSEntry.path) with
                | [] => Except.error PickErr.indexError
                | q :: _ => Except.ok q.dropLast := by
              simp [pick_make_dir, hmf, hone, htd, htf]
            rcases hs : sortByLen ((makefiles fs).map FSEntry.path) with _ | ⟨q, rest⟩
            · exfalso
              have : (makefiles fs).map FSEntry.path = [] := sortByLen_eq_nil.mp hs
              exact hnonempty (List.map_eq_nil_iff.mp this)
            · rw [hfinal, hs]
              refine ⟨fun r hr => ?_, by simp⟩
              have hr' : r = q.dropLast := by simpa using hr.symm
              subst hr'
              have hq : q ∈ (makefiles fs).map FSEntry.path := (sortByLen_head_min hs).1
              rcases List.mem_map.mp hq with ⟨e, he, rfl⟩
              exact props e he
          case nil =>
            -- the single-top-level-directory branch
            have hbranch : pick_make_dir fs =
                match sortByLen (baseCandidates fs base) with
                | [] => Except.error PickErr.indexError
                | q :: _ => Except.ok q.dropLast := by
              simp [pick_make_dir, hmf, hone, htd, htf]
            rcases hne : makefiles fs with _ | ⟨e0, _⟩
            · exact absurd hne hnonempty
            have he0 : e0 ∈ makefiles fs := by rw [hne]; exact List.mem_cons_self _ _
            have hcand : e0.path ∈ baseCandidates fs base :=
              mem_baseCandidates_of_makefile hwf hroot htd he0
            rcases hs : sortByLen (baseCandidates fs base) with _ | ⟨q, rest⟩
            · exfalso
              have : baseCandidates fs base = [] := sortByLen_eq_nil.mp hs
              rw [this] at hcand
              exact absurd hcand (List.not_mem_nil _)
            · rw [hbranch, hs]
              refine ⟨fun r hr => ?_, by simp⟩
              have hr' : r = q.dropLast := by simpa using hr.symm
              subst hr'
              have hq : q ∈ baseCandidates fs base := (sortByLen_head_min hs).1
              unfold baseCandidates at hq
              rcases List.mem_map.mp hq with ⟨e, he, rfl⟩
              rcases List.mem_filter.mp he with ⟨hefs, hcond⟩
              rcases Bool.and_eq_true_iff.mp hcond with ⟨_, hemk⟩
              exact props e (mem_makefiles.mpr ⟨hefs, hemk⟩)

/-- Claim C6 (amended): on a well-formed tree with no entry named
`Makefile` at the extraction root itself, whose filtered immediate
children are exactly one directory and no files, and which holds at least
one `Makefile`-named entry outside `__MACOSX` subtrees, `pick_make_dir`
returns the parent of a minimal-depth `Makefile`-named entry (file or,
because `rglob` matches by name, directory) inside that single top-level
directory. -/
theorem pick_make_dir_single_top_dir (fs : FSState) (base : FSEntry)
    (hwf : fswf fs = true)
    (hroot : ∀ e ∈ makefiles fs, e.path.length ≠ 1)
    (htd : top_dirs fs = [base]) (htf : top_files fs = [])
    (hex : makefiles fs ≠ []) :
    ∃ q, q ∈ baseCandidates fs base ∧
      (∀ y ∈ baseCandidates fs base, q.length ≤ y.length) ∧
      pick_make_dir fs = Except.ok q.dropLast := by
  have hmf : (makefiles fs).isEmpty = false := by
    simpa [List.isEmpty_eq_false] using hex
  have hone : (makefiles fs).any (fun e => e.path.length == 1) = false := by
    rw [List.any_eq_false]
    intro e he
    simpa using hroot e he
  rcases hne : makefiles fs with _ | ⟨e0, rest0⟩
  · exact absurd hne hex
  have he0 : e0 ∈ makefiles fs := by rw [hne]; exact List.mem_cons_self _ _
  have hcand : e0.path ∈ baseCandidates fs base :=
    mem_baseCandidates_of_makefile hwf hroot htd he0
  rcases hs : sortByLen (baseCandidates fs base) with _ | ⟨q, qrest⟩
  · exfalso
    have : baseCandidates fs base = [] := sortByLen_eq_nil.mp hs
    rw [this] at hcand
    exact absurd hcand (List.not_mem_nil _)
  · obtain ⟨hqmem, hqmin⟩ := sortByLen_head_min hs
    exact ⟨q, hqmem, hqmin, by simp [pick_make_dir, hmf, hone, htd, htf, hs]⟩

/-- Witness for C6 (amended), at the claim's own example shape: a single
top-level directory with descriptors at depths 2 and 3.  On `fs6` the
resolver picks the depth-2 descriptor's parent. -/
theorem pick_make_dir_single_top_dir_witness :
    ∃ q, q ∈ baseCandidates fs6 (FSEntry.mk ["proj"] true) ∧
      (∀ y ∈ baseCandidates fs6 (FSEntry.mk ["proj"] true), q.length ≤ y.length) ∧
      pick_make_dir fs6 = Except.ok q.dropLast :=
  pick_make_dir_single_top_dir fs6 (FSEntry.mk ["proj"] true)
    (by decide) (by decide) (by decide) (by decide) (by decide)

/-- Counterexample to C6 as stated: `fsC6` satisfies the claim's
hypotheses — no descriptor file at the root itself, exactly one top-level
directory and no top-level files after filtering, and a descriptor file
present inside (only at `Makefile/sub/Makefile`, so the shallowest
descriptor file's parent is `Makefile/sub`) — yet `pick_make_dir` returns
the extraction root, because `rglob("Makefile")` also matches the
*directory* named `Makefile` whose parent is the root. -/
theorem pick_make_dir_wrapper_counterexample :
    fswf fsC6 = true ∧
    (¬ ∃ e ∈ fsC6, e.isDir = false ∧ e.path.length = 1 ∧
      e.path.getLast? = some "Makefile") ∧
    top_dirs fsC6 = [FSEntry.mk ["Makefile"] true] ∧
    top_files fsC6 = [] ∧
    (∃ e ∈ fsC6, e.isDir = false ∧ isMakefileEntry e = true) ∧
    (∀ e ∈ fsC6, e.isDir = false → isMakefileEntry e = true →
      e.path.dropLast = ["Makefile", "sub"]) ∧
    pick_make_dir fsC6 = Except.ok [] ∧
    ([] : List String) ≠ ["Makefile", "sub"] := by
  refine ⟨by decide, by decide, by decide, by decide, ?_, by decide, by rfl, by decide⟩
  exact ⟨FSEntry.mk ["Makefile", "sub", "Makefile"] false, by decide, by decide, by decide⟩

/-- Witness for C9 (amended) at a concrete tree: on `fsW9` the resolver
succeeds with `a`, which contains the entry `a/Makefile`, and no
out-of-bounds access occurs. -/
theorem pick_make_dir_ok_sound_witness :
    ((∃ e ∈ fsW9, isMakefileEntry e = true ∧ ["a"] = e.path.dropLast) ∧
      (["a"] : List String).contains "__MACOSX" = false ∧
      ((["a"] : List String) = [] ∨ ∃ d ∈ fsW9, d.isDir = true ∧ d.path = ["a"])) ∧
    pick_make_dir fsW9 ≠ Except.error PickErr.indexError :=
  ⟨(pick_make_dir_ok_sound fsW9 (by decide)).1 ["a"] (by rfl),
   (pick_make_dir_ok_sound fsW9 (by decide)).2⟩

/-- Counterexample to C9 as stated: on `fsC9` — a well-formed tree — the
resolver succeeds with the extraction root, but the returned directory
contains no *file* named `Makefile`; the matched entry is a directory. -/
theorem pick_make_dir_dir_match_counterexample :
    fswf fsC9 = true ∧
    pick_make_dir fsC9 = Except.ok [] ∧
    ¬ ∃ e ∈ fsC9, e.isDir = false ∧ e.path = ["Makefile"] := by
  refine ⟨by decide, by rfl, by decide⟩

/-- The surviving store of a sweep, as a filter. -/
theorem cleanup_fst (now : Int) (js : JobStore) :
    (cleanup_expired_jobs now js).1 =
      js.filter (fun e => !decide (now - e.2.2 > TTL_SECONDS)) := rfl

/-- An identifier absent from the store is absent from any filtered
store. -/
theorem lookupJob_filter_none {js : JobStore} {id : String}
    {f : String × List String × Int → Bool}
    (h : lookupJob js id = none) : lookupJob (js.filter f) id = none := by
  unfold lookupJob at h ⊢
  rcases hf : js.find? (fun e => e.1 == id) with _ | e
  · have : (js.filter f).find? (fun e => e.1 == id) = none := by
      rw [List.find?_eq_none] at hf ⊢
      intro x hx
      exact hf x (List.mem_filter.mp hx).1
    rw [this]
  · rw [hf] at h
    exact absurd h (by simp)

/-- The first match for an identifier survives filtering when the filter
keeps it (the entries dropped in front of it do not match the
identifier). -/
theorem find?_filter_kept {f : String × List String × Int → Bool}
    {id : String} {e : String × List String × Int} :
    ∀ {js : JobStore}, js.find? (fun x => x.1 == id) = some e → f e = true →
      (js.filter f).find? (fun x => x.1 == id) = some e
  | [], h, _ => by simp at h
  | x :: xs, h, hfe => by
    cases hx : (x.1 == id) with
    | true =>
      have hex : x = e := by
        rw [List.find?_cons_of_pos xs hx] at h
        exact Option.some_injective _ h
      subst hex
      rw [List.filter_cons, if_pos hfe]
      exact List.find?_cons_of_pos _ hx
    | false =>
      have htail : xs.find? (fun y => y.1 == id) = some e := by
        rw [List.find?_cons_of_neg xs (by simp [hx])] at h
        exact h
      rw [List.filter_cons]
      rcases hfx : f x with _ | _
      · rw [if_neg (by simp)]
        exact find?_filter_kept htail hfe
      · rw [if_pos rfl, List.find?_cons_of_neg _ (by simp [hx])]
        exact find?_filter_kept htail hfe

/-- Claim C7: a `/download` request (housekeeping sweep, then handler)
serves a file exactly when the identifier is present in the (swept) store
and the recorded artifact path still exists on disk; an unknown
identifier, a fully expired identifier, and a missing artifact file each
yield not-found. -/
theorem download_redeem_iff (now : Int) (js : JobStore)
    (disk : List String → Bool) (id : String) :
    (∀ p, handleDownload now js disk id = DlResp.file p ↔
      ((∃ t, lookupJob (cleanup_expired_jobs now js).1 id = some (p, t)) ∧
        disk p = true)) ∧
    (lookupJob js id = none → handleDownload now js disk id = DlResp.notFound) ∧
    ((∀ p t, (id, p, t) ∈ js → now - t > TTL_SECONDS) →
      handleDownload now js disk id = DlResp.notFound) ∧
    (∀ p t, lookupJob (cleanup_expired_jobs now js).1 id = some (p, t) →
      disk p = false → handleDownload now js disk id = DlResp.notFound) := by
  refine ⟨?_, ?_, ?_, ?_⟩
  · intro p
    unfold handleDownload download
    rcases hl : lookupJob (cleanup_expired_jobs now js).1 id with _ | ⟨q, t0⟩
    · simp
    · rcases hd : disk q with _ | _
      · simp only [hd]
        constructor
        · intro hcontra
          exact absurd hcontra (by simp)
        · rintro ⟨⟨t, ht⟩, hdp⟩
          have hqp : q = p := (by simpa using ht : q = p ∧ t0 = t).1
          rw [hqp] at hd
          rw [hd] at hdp
          exact absurd hdp (by simp)
      · simp only [hd]
        constructor
        · intro hfile
          have hqp : q = p := by simpa using hfile
          subst hqp
          exact ⟨⟨t0, rfl⟩, hd⟩
        · rintro ⟨⟨t, ht⟩, _⟩
          have hqp : q = p := (by simpa using ht : q = p ∧ t0 = t).1
          simp [hqp]
  · intro h
    unfold handleDownload download
    rw [cleanup_fst, lookupJob_filter_none h]
  · intro h
    unfold handleDownload download
    have hnone : lookupJob (cleanup_expired_jobs now js).1 id = none := by
      rw [cleanup_fst]
      unfold lookupJob
      have : (js.filter (fun e => !decide (now - e.2.2 > TTL_SECONDS))).find?
          (fun e => e.1 == id) = none := by
        rw [List.find?_eq_none]
        intro x hx
        rcases List.mem_filter.mp hx with ⟨hxjs, hxkeep⟩
        intro hxid
        have hid : x.1 = id := by simpa using hxid
        have hmem : (id, x.2.1, x.2.2) ∈ js := by
          rw [← hid]
          exact hxjs
        have hexp := h x.2.1 x.2.2 hmem
        have hkf : decide (now - x.2.2 > TTL_SECONDS) = false := by
          simpa using hxkeep
        rw [decide_eq_false_iff_not] at hkf
        exact hkf hexp
      rw [this]
    rw [hnone]
  · intro p t hl hd
    unfold handleDownload download
    rw [hl]
    simp [hd]

/-- Witness for C7: an identifier not in the store is answered
not-found. -/
theorem download_redeem_iff_witness :
    handleDownload 0 [("a", ["x"], 0)] (fun _ => true) "b" = DlResp.notFound :=
  (download_redeem_iff 0 [("a", ["x"], 0)] (fun _ => true) "b").2.1 (by rfl)

/-- Claim C8: inserting a job record and immediately looking the returned
identifier up yields exactly the artifact path (and timestamp) supplied at
creation. -/
theorem createJob_lookupJob (js : JobStore) (id : String) (p : List String)
    (t : Int) : lookupJob (createJob js id p t) id = some (p, t) := by
  unfold createJob lookupJob
  rw [List.find?_cons_of_pos _ (by simp)]

/-- Claim C10: the time-to-live is 900 seconds, a sweep keeps exactly the
entries whose age does not strictly exceed it, and a job of age exactly
900 seconds is retained and still redeemable. -/
theorem ttl_strict (now : Int) (js : JobStore) :
    TTL_SECONDS = 900 ∧
    (∀ e : String × List String × Int,
      e ∈ (cleanup_expired_jobs now js).1 ↔
        (e ∈ js ∧ ¬(now - e.2.2 > TTL_SECONDS))) ∧
    (∀ (id : String) (p : List String) (t : Int) (disk : List String → Bool),
      lookupJob js id = some (p, t) → now - t = TTL_SECONDS → disk p = true →
      handleDownload now js disk id = DlResp.file p) := by
  refine ⟨rfl, ?_, ?_⟩
  · intro e
    rw [cleanup_fst, List.mem_filter]
    constructor
    · rintro ⟨h1, h2⟩
      refine ⟨h1, ?_⟩
      have hdf : decide (now - e.2.2 > TTL_SECONDS) = false := by simpa using h2
      rwa [decide_eq_false_iff_not] at hdf
    · rintro ⟨h1, h2⟩
      exact ⟨h1, by simp [h2]⟩
  · intro id p t disk hl hage hdisk
    unfold lookupJob at hl
    rcases hf : js.find? (fun e => e.1 == id) with _ | e
    · rw [hf] at hl
      exact absurd hl (by simp)
    · rw [hf] at hl
      have he2 : e.2 = (p, t) := by simpa using hl
      have ht : e.2.2 = t := by rw [he2]
      have hkeep : (fun x : String × List String × Int =>
          !decide (now - x.2.2 > TTL_SECONDS)) e = true := by
        simp [ht, hage]
      have hkept := @find?_filter_kept
          (fun x : String × List String × Int => !decide (now - x.2.2 > TTL_SECONDS))
          id e js hf hkeep
      unfold handleDownload download
      rw [cleanup_fst]
      unfold lookupJob
      rw [hkept]
      simp [he2, hdisk]

/-- Witness for C10: a job created at time 0 is still served at time
exactly 900. -/
theorem ttl_strict_witness :
    TTL_SECONDS = 900 ∧
    handleDownload 900 [("a", ["x"], 0)] (fun _ => true) "a" = DlResp.file ["x"] :=
  ⟨(ttl_strict 900 [("a", ["x"], 0)]).1,
   (ttl_strict 900 [("a", ["x"], 0)]).2.2 "a" ["x"] 0 (fun _ => true) rfl
     (by decide) rfl⟩

/-- Claim C2, failing part: the sweep at time 1000 does remove the expired
entry — the identifier is no longer found — but the directory it deletes
is `pdf_path.parents[2] = tmp/job1/src`, the *make* directory, not the
owning Working Directory `tmp/job1`; in particular the archive copy
`tmp/job1/upload.zip` is not inside the deleted subtree and stays on
disk.  (The code's own comment says "job root = parent of Makefile dir",
which here is `tmp/job1`, yet `parents[2]` is the Makefile directory
itself.) -/
theorem cleanup_deletes_make_dir_not_workdir :
    (cleanup_expired_jobs 1000 c2store).1 = [] ∧
    lookupJob (cleanup_expired_jobs 1000 c2store).1 "job1" = none ∧
    (cleanup_expired_jobs 1000 c2store).2 = [["tmp", "job1", "src"]] ∧
    (["tmp", "job1", "src"] : List String) ≠ ["tmp", "job1"] ∧
    List.isPrefixOf ["tmp", "job1", "src"] ["tmp", "job1", "upload.zip"] = false :=
  ⟨rfl, rfl, rfl, by decide, by decide⟩

/-- Claim C1, failing part: on a nonzero build exit, and likewise on an
invalid/unsafe archive, the handler returns after the Working Directory
was created without removing it and without creating a Job — so nothing
ever reclaims that directory (only the timeout path calls
`shutil.rmtree`). -/
theorem build_leaks_workdir_on_failure :
    ((build ["tmp", "w1"] "j1" 0 reqFailBuild).workdirCreated = true ∧
     (build ["tmp", "w1"] "j1" 0 reqFailBuild).workdirRemoved = false ∧
     (build ["tmp", "w1"] "j1" 0 reqFailBuild).job = none ∧
     (build ["tmp", "w1"] "j1" 0 reqFailBuild).response =
       HttpResponse.plain 500 (buildFailedBody "make: error")) ∧
    ((build ["tmp", "w2"] "j2" 0 reqBadZip).workdirCreated = true ∧
     (build ["tmp", "w2"] "j2" 0 reqBadZip).workdirRemoved = false ∧
     (build ["tmp", "w2"] "j2" 0 reqBadZip).job = none) :=
  ⟨⟨rfl, rfl, rfl, rfl⟩, rfl, rfl, rfl⟩

/-- Claim C4: when the pipeline reaches the build step and the tool runs
into the deadline, the request is answered with the dedicated 504 timeout
response (distinct from every nonzero-exit 500 response), the Working
Directory is removed, and no Job is created. -/
theorem build_timeout_removes_workdir (workdir : List String) (jobId : String)
    (now : Int) (req : BuildRequest) (entries : List ZipEntry)
    (mdir : List String)
    (h1 : req.hasFileField = true) (h2 : req.filename ≠ "")
    (h3 : strEndsWith (pyLower req.filename) ".zip" = true)
    (h4 : req.zipParse = some entries)
    (h5 : (safe_extract_zip (workdir ++ ["src"]) entries).2 = none)
    (h6 : pick_make_dir req.extractedFs = Except.ok mdir)
    (h7 : req.proc = ProcResult.timeout) :
    build workdir jobId now req =
      BuildOutcome.mk (HttpResponse.plain 504 "Build timed out.") true true none ∧
    (∀ log, HttpResponse.plain 504 "Build timed out." ≠
      HttpResponse.plain 500 (buildFailedBody log)) := by
  constructor
  · unfold build
    rw [h1, h4, h7]
    simp [h2, h3, h5, h6]
  · intro log
    simp

/-- Witness for C4 at a concrete timed-out request. -/
theorem build_timeout_removes_workdir_witness :
    (build ["tmp", "w"] "j" 0 reqTimeout =
      BuildOutcome.mk (HttpResponse.plain 504 "Build timed out.") true true none) ∧
    (∀ log, HttpResponse.plain 504 "Build timed out." ≠
      HttpResponse.plain 500 (buildFailedBody log)) :=
  build_timeout_removes_workdir ["tmp", "w"] "j" 0 reqTimeout
    [ZipEntry.mk false ["Makefile"]] [] rfl (by decide) (by rfl) rfl rfl rfl rfl

/-- Claim C5: a nonzero exit of the build tool is handled as an ordinary
result, not an exception: the handler returns a plain 500 response whose
body is the fixed prefix followed verbatim by the captured merged
stdout+stderr log, and no Job is created (the response is a normal
`return`, not an `abort` and not an uncaught exception). -/
theorem build_nonzero_exit_response (workdir : List String) (jobId : String)
    (now : Int) (req : BuildRequest) (entries : List ZipEntry)
    (mdir : List String) (c : Nat) (log : String)
    (h1 : req.hasFileField = true) (h2 : req.filename ≠ "")
    (h3 : strEndsWith (pyLower req.filename) ".zip" = true)
    (h4 : req.zipParse = some entries)
    (h5 : (safe_extract_zip (workdir ++ ["src"]) entries).2 = none)
    (h6 : pick_make_dir req.extractedFs = Except.ok mdir)
    (h7 : req.proc = ProcResult.completed c log) (h8 : c ≠ 0) :
    build workdir jobId now req =
      BuildOutcome.mk (HttpResponse.plain 500 (buildFailedBody log)) true false none ∧
    buildFailedBody log = "Build failed.\n\n----- build log -----\n" ++ log ∧
    (∀ s m, HttpResponse.plain 500 (buildFailedBody log) ≠ HttpResponse.httpAbort s m) ∧
    (∀ s, HttpResponse.plain 500 (buildFailedBody log) ≠ HttpResponse.serverError s) := by
  refine ⟨?_, rfl, by intro s m; simp, by intro s; simp⟩
  unfold build
  rw [h1, h4, h7]
  simp [h2, h3, h5, h6, h8]

/-- Witness for C5 at a concrete exit-code-2 request. -/
theorem build_nonzero_exit_response_witness :
    (build ["tmp", "w1"] "j1" 0 reqFailBuild =
      BuildOutcome.mk (HttpResponse.plain 500 (buildFailedBody "make: error"))
        true false none) ∧
    buildFailedBody "make: error" =
      "Build failed.\n\n----- build log -----\n" ++ "make: error" ∧
    (∀ s m, HttpResponse.plain 500 (buildFailedBody "make: error") ≠
      HttpResponse.httpAbort s m) ∧
    (∀ s, HttpResponse.plain 500 (buildFailedBody "make: error") ≠
      HttpResponse.serverError s) :=
  build_nonzero_exit_response ["tmp", "w1"] "j1" 0 reqFailBuild
    [ZipEntry.mk false ["Makefile"]] [] 2 "make: error" rfl (by decide) (by rfl)
    rfl rfl rfl rfl (by decide)
